import Mathlib

/-!
Verification of `AKWF-js/convert.py`, a one-shot batch converter that reads
mono 16-bit PCM WAV files, normalizes the samples to rationals in [-1, 1]
rounded to six decimal places, and writes one JSON mapping per bank
directory plus a `manifest.json` listing the processed banks.

The embedding below follows the Python source function by function:
`read_wav`, `process_bank` and `main`.  File-system effects (files written,
stdout/stderr lines, exit code) are made explicit as fields of outcome
structures; an uncaught Python exception is the `Except.error` case.
-/

namespace AKWF

/-- Round-half-to-even of a rational to the nearest integer.  This is what
the built-in Python `round` computes on a value that the binary double
represents exactly (CPython rounds the exact decimal expansion of the
double, ties to even). -/
def rhe (q : ℚ) : ℤ :=
  if q - (⌊q⌋ : ℚ) < 1/2 then ⌊q⌋
  else if 1/2 < q - (⌊q⌋ : ℚ) then ⌊q⌋ + 1
  else if ⌊q⌋ % 2 = 0 then ⌊q⌋ else ⌊q⌋ + 1

/-- Model of `round(x, 6)`: round to six decimal places, ties to even. -/
def round6 (q : ℚ) : ℚ := (rhe (q * 1000000) : ℚ) / 1000000

/-- Normalization of one 16-bit sample value: `round(s / 32768.0, 6)`
(`s / 32768.0` is exact in a binary double, so the rational model is
faithful). -/
def normalize (s : ℤ) : ℚ := round6 ((s : ℚ) / 32768)

/-- Interpretation by `struct.unpack` of a 16-bit unsigned value as a
signed 16-bit integer (format character `h`). -/
def toSigned16 (v : ℕ) : ℤ := if v < 32768 then (v : ℤ) else (v : ℤ) - 65536

/-- Decode consecutive byte pairs as signed 16-bit little-endian integers,
as `struct.unpack` with a little-endian repeated-`h` format does. -/
def decode16le : List ℕ → List ℤ
  | b0 :: b1 :: rest => toSigned16 (b0 + 256 * b1) :: decode16le rest
  | _ => []

/-- Model of the `struct.unpack` call in `read_wav`: `n` signed 16-bit
little-endian integers; raises `struct.error` unless the payload is
exactly `2*n` bytes. -/
def unpack_h (n : ℕ) (raw : List ℕ) : Except String (List ℤ) :=
  if raw.length = 2 * n then .ok (decode16le raw) else .error "struct.error"

/-- The fields of a parsed WAV file that `read_wav` consults: the channel
count, the frame count, and the raw bytes returned by
`readframes(n_frames)`. -/
structure WavFile where
  nchannels : ℕ
  nframes : ℕ
  raw : List ℕ
deriving DecidableEq

/-- The content of a file as seen by `read_wav`: a WAV file the `wave`
module can open, or a file whose header `wave.open` rejects with an
exception. -/
inductive FileContent where
  | wav (w : WavFile)
  | malformed
deriving DecidableEq

/-- Model of `read_wav`: `None` (skipped) for non-mono files, otherwise
the list of normalized samples; a `struct.error` escapes if the payload
length does not match the frame count at two bytes per frame. -/
def read_wav (w : WavFile) : Except String (Option (List ℚ)) :=
  if w.nchannels ≠ 1 then .ok none
  else
    match unpack_h w.nframes w.raw with
    | .error e => .error e
    | .ok samples => .ok (some (samples.map normalize))

/-- Opening and reading one file: `wave.open` raises on a malformed header,
otherwise `read_wav` runs. -/
def readSample : FileContent → Except String (Option (List ℚ))
  | .malformed => .error "wave.Error"
  | .wav w => read_wav w

/-- Index of the last occurrence of a dot in a character list, if any. -/
def lastDotIdx (l : List Char) : Option ℕ :=
  match l.reverse.findIdx? (· = '.') with
  | none => none
  | some j => some (l.length - 1 - j)

/-- Python `pathlib.PurePath.stem`: the file name without its suffix.  The
suffix starts at the last dot, except when that dot is the first or the
last character of the name (then there is no suffix). -/
def stem (name : String) : String :=
  match lastDotIdx name.data with
  | none => name
  | some i =>
    if 0 < i ∧ i < name.data.length - 1 then ⟨name.data.take i⟩ else name

/-- Python dict insertion `d[k] = v`: overwrite in place if the key exists,
otherwise append at the end. -/
def dinsert {α : Type} (k : String) (v : α) :
    List (String × α) → List (String × α)
  | [] => [(k, v)]
  | (k1, v1) :: rest =>
    if k1 = k then (k1, v) :: rest else (k1, v1) :: dinsert k v rest

/-- The keys of an association list, in insertion order. -/
def keys {α : Type} (m : List (String × α)) : List String := m.map Prod.fst

/-- Membership in the `*.wav` glob of a bank directory: fnmatch of the
name against the pattern, i.e. the name ends with `.wav`. -/
def matchesWav (name : String) : Bool :=
  [ '.', 'w', 'a', 'v' ].isSuffixOf name.data

/-- Lexicographic comparison of character lists by Unicode code point:
this is how Python compares the strings that `sorted` orders. -/
def charListLe : List Char → List Char → Bool
  | [], _ => true
  | _ :: _, [] => false
  | a :: as, b :: bs =>
    if a.toNat < b.toNat then true
    else if b.toNat < a.toNat then false
    else charListLe as bs

/-- Python string comparison `a <= b`. -/
def nameLe (a b : String) : Bool := charListLe a.data b.data

/-- The `for` loop of `process_bank`: read each file in turn, drop the
skipped ones, insert the rest keyed by the stem of the file.  A read
error is not handled and aborts. -/
def buildWaveforms : List (String × FileContent) → List (String × List ℚ) →
    Except String (List (String × List ℚ))
  | [], acc => .ok acc
  | e :: rest, acc =>
    match readSample e.2 with
    | .error msg => .error msg
    | .ok none => buildWaveforms rest acc
    | .ok (some samples) => buildWaveforms rest (dinsert (stem e.1) samples acc)

/-- Model of the sorted `*.wav` glob of a bank directory: the matching
entries in ascending filename order.  Python `sorted` is a stable sort,
modelled by a stable insertion sort. -/
def sortedWavFiles (files : List (String × FileContent)) :
    List (String × FileContent) :=
  (files.filter (fun e => matchesWav e.1)).insertionSort
    (fun a b => nameLe a.1 b.1 = true)

/-- What one `process_bank` call does to the world: the bank JSON file it
writes (file name and content mapping), the progress line it prints, and
its return value. -/
structure BankOutcome where
  written : Option (String × List (String × List ℚ))
  progress : Option String
  result : Option String
deriving DecidableEq

/-- Model of `process_bank`: build the waveform mapping over the sorted
`*.wav` matches; when it is non-empty, write `<bank>.json`, print a
progress line and return the bank name, otherwise do nothing and return
`None`. -/
def process_bank (bank_name : String) (files : List (String × FileContent)) :
    Except String BankOutcome :=
  match buildWaveforms (sortedWavFiles files) [] with
  | .error e => .error e
  | .ok waveforms =>
    if waveforms.isEmpty then .ok ⟨none, none, none⟩
    else
      .ok ⟨some (bank_name ++ ".json", waveforms),
           some ("Processed " ++ bank_name ++ ": " ++
             toString waveforms.length ++ " waveforms"),
           some bank_name⟩

/-- An entry of the working root: a subdirectory with its files, or a
plain (non-directory) entry. -/
inductive RootNode where
  | dir (files : List (String × FileContent))
  | file (c : FileContent)
deriving DecidableEq

/-- Everything `main` does to the world: the exit code, the stderr line (if
any), the bank JSON files written, the manifest bank list written (if the
manifest write was reached), and the stdout lines, in order. -/
structure MainOutcome where
  exitCode : ℕ
  stderrLine : Option String
  written : List (String × List (String × List ℚ))
  manifest : Option (List String)
  stdoutLines : List String
deriving DecidableEq

/-- Membership in the `AKWF_*` glob of the working root: fnmatch of the
entry name against the pattern, i.e. the name starts with `AKWF_`. -/
def matchesBank (name : String) : Bool :=
  [ 'A', 'K', 'W', 'F', '_' ].isPrefixOf name.data

/-- Model of the sorted `AKWF_*` glob of the working root: all matching
entries (files included), in ascending name order. -/
def bankDirs (entries : List (String × RootNode)) :
    List (String × RootNode) :=
  (entries.filter (fun e => matchesBank e.1)).insertionSort
    (fun a b => nameLe a.1 b.1 = true)

/-- The `for bank_dir in bank_dirs` loop of `main`: skip glob matches that
are not directories, process the rest, and accumulate the returned bank
names, the files written and the progress lines printed. -/
def processAll : List (String × RootNode) → List String →
    List (String × List (String × List ℚ)) → List String →
    Except String
      (List String × List (String × List (String × List ℚ)) × List String)
  | [], names, written, lines => .ok (names, written, lines)
  | (_, .file _) :: rest, names, written, lines =>
    processAll rest names written lines
  | (name, .dir files) :: rest, names, written, lines =>
    match process_bank name files with
    | .error e => .error e
    | .ok o =>
      processAll rest (names ++ o.result.toList) (written ++ o.written.toList)
        (lines ++ o.progress.toList)

/-- Model of `main`: `work_dir` is the root path string (only used in
error messages), `isDir` tells whether it is a directory, `entries` are
its directory entries by name. -/
def main (work_dir : String) (isDir : Bool)
    (entries : List (String × RootNode)) : Except String MainOutcome :=
  if !isDir then
    .ok ⟨1, some ("Error: Directory " ++ work_dir ++ " not found"),
         [], none, []⟩
  else if (bankDirs entries).isEmpty then
    .ok ⟨1, some ("Error: No AKWF_* directories found in " ++ work_dir),
         [], none, []⟩
  else
    match processAll (bankDirs entries) [] [] [] with
    | .error e => .error e
    | .ok (names, written, lines) =>
      .ok ⟨0, none, written, some names,
           lines ++ ["Generated " ++ toString names.length ++
             " bank files and manifest.json"]⟩

/-- Whether a root entry contributes a bank file (and hence its name to
the manifest): it is a directory and its waveform mapping is non-empty. -/
def producesOutput (e : String × RootNode) : Bool :=
  match e.2 with
  | .file _ => false
  | .dir files =>
    match process_bank e.1 files with
    | .ok o => o.result.isSome
    | .error _ => false

/-! ### Rounding lemmas -/

theorem le_rhe (m : ℤ) (q : ℚ) (h : (m : ℚ) ≤ q) : m ≤ rhe q := by
  have hf : m ≤ ⌊q⌋ := Int.le_floor.mpr h
  unfold rhe
  split_ifs <;> omega

theorem rhe_le (m : ℤ) (q : ℚ) (h : q ≤ (m : ℚ)) : rhe q ≤ m := by
  have hf : ⌊q⌋ ≤ m := by
    have := Int.floor_le_floor h
    simpa using this
  have hlt : (1:ℚ)/2 ≤ q - (⌊q⌋ : ℚ) → ⌊q⌋ < m := by
    intro hr
    rcases lt_or_eq_of_le hf with h1 | h1
    · exact h1
    · exfalso
      have hq : q ≤ (⌊q⌋ : ℚ) := by rw [h1]; exact h
      have : q - (⌊q⌋ : ℚ) ≤ 0 := by linarith
      linarith
  unfold rhe
  split_ifs with h1 h2 h3
  · exact hf
  · have := hlt (le_of_lt h2)
    omega
  · exact hf
  · have := hlt (le_of_not_lt h1)
    omega

/-- Evaluation rule for `rhe` strictly below the upper tie point. -/
theorem rhe_eq_of (q : ℚ) (n : ℤ) (h1 : (n : ℚ) ≤ q) (h2 : q < n + 1/2) :
    rhe q = n := by
  have hf : ⌊q⌋ = n := by
    rw [Int.floor_eq_iff]
    exact ⟨h1, by linarith⟩
  unfold rhe
  rw [hf]
  have hr : q - (n : ℚ) < 1/2 := by linarith
  rw [if_pos hr]

theorem normalize_mem_Icc (s : ℤ) (h1 : -32768 ≤ s) (h2 : s ≤ 32767) :
    -1 ≤ normalize s ∧ normalize s ≤ 1 := by
  have hq1 : (-1000000 : ℚ) ≤ (s : ℚ) / 32768 * 1000000 := by
    have : (-32768 : ℚ) ≤ (s : ℚ) := by exact_mod_cast h1
    rw [div_mul_eq_mul_div, le_div_iff (by norm_num)]
    nlinarith
  have hq2 : (s : ℚ) / 32768 * 1000000 ≤ (1000000 : ℚ) := by
    have : (s : ℚ) ≤ 32767 := by exact_mod_cast h2
    rw [div_mul_eq_mul_div, div_le_iff (by norm_num)]
    nlinarith
  have hlo : (-1000000 : ℤ) ≤ rhe ((s : ℚ) / 32768 * 1000000) := by
    apply le_rhe
    exact_mod_cast hq1
  have hhi : rhe ((s : ℚ) / 32768 * 1000000) ≤ (1000000 : ℤ) := by
    apply rhe_le
    exact_mod_cast hq2
  unfold normalize round6
  constructor
  · rw [le_div_iff (by norm_num)]
    have : ((-1000000 : ℤ) : ℚ) ≤ (rhe ((s : ℚ) / 32768 * 1000000) : ℚ) := by
      exact_mod_cast hlo
    push_cast at this ⊢
    linarith
  · rw [div_le_one (by norm_num)]
    have : ((rhe ((s : ℚ) / 32768 * 1000000)) : ℚ) ≤ ((1000000 : ℤ) : ℚ) := by
      exact_mod_cast hhi
    push_cast at this ⊢
    linarith

/-! ### Decoding lemmas -/

theorem decode16le_length : ∀ raw : List ℕ,
    (decode16le raw).length = raw.length / 2
  | [] => by simp [decode16le]
  | [_] => by simp [decode16le]
  | b0 :: b1 :: rest => by
    simp only [decode16le, List.length_cons, decode16le_length rest]
    omega

theorem decode16le_getElem : ∀ (raw : List ℕ) (i : ℕ),
    2 * i + 1 < raw.length →
    (decode16le raw)[i]? =
      some (toSigned16 ((raw[2*i]?.getD 0) + 256 * (raw[2*i+1]?.getD 0)))
  | [], i, h => by
    simp only [List.length_nil] at h
    omega
  | [_], i, h => by
    simp only [List.length_cons, List.length_nil] at h
    omega
  | b0 :: b1 :: rest, 0, h => by
    simp [decode16le]
  | b0 :: b1 :: rest, i + 1, h => by
    have hr : 2 * i + 1 < rest.length := by
      simp only [List.length_cons] at h
      omega
    have ih := decode16le_getElem rest i hr
    have e1 : 2 * (i + 1) = 2 * i + 1 + 1 := by omega
    rw [e1]
    simp only [decode16le, List.getElem?_cons_succ]
    simpa using ih

theorem toSigned16_bounds (v : ℕ) (h : v ≤ 65535) :
    -32768 ≤ toSigned16 v ∧ toSigned16 v ≤ 32767 := by
  unfold toSigned16
  split_ifs with h1
  · omega
  · omega

theorem decode16le_mem_bounds : ∀ raw : List ℕ, (∀ b ∈ raw, b < 256) →
    ∀ x ∈ decode16le raw, -32768 ≤ x ∧ x ≤ 32767
  | [], _, x, hx => by simp [decode16le] at hx
  | [_], _, x, hx => by simp [decode16le] at hx
  | b0 :: b1 :: rest, hb, x, hx => by
    simp only [decode16le, List.mem_cons] at hx
    rcases hx with hx | hx
    · subst hx
      apply toSigned16_bounds
      have h0 : b0 < 256 := hb b0 (by simp)
      have h1 : b1 < 256 := hb b1 (by simp)
      omega
    · exact decode16le_mem_bounds rest
        (fun b hmem => hb b (by simp [hmem])) x hx

/-- `read_wav` on a mono file with a consistent payload returns the decoded
and normalized samples. -/
theorem read_wav_mono (w : WavFile) (h1 : w.nchannels = 1)
    (h2 : w.raw.length = 2 * w.nframes) :
    read_wav w = .ok (some ((decode16le w.raw).map normalize)) := by
  unfold read_wav unpack_h
  simp [h1, h2]

/-! ### Dictionary lemmas -/

theorem dinsert_of_not_mem {α : Type} (k : String) (v : α) :
    ∀ m : List (String × α), k ∉ keys m → dinsert k v m = m ++ [(k, v)]
  | [], _ => rfl
  | (k1, v1) :: rest, h => by
    have hne : k1 ≠ k := by
      intro he
      exact h (by simp [keys, he])
    simp only [dinsert, if_neg hne, List.cons_append, List.cons.injEq, true_and]
    exact dinsert_of_not_mem k v rest (fun hm => h (by simp [keys] at hm ⊢; right; exact hm))

theorem mem_keys_dinsert {α : Type} (a k : String) (v : α) :
    ∀ m : List (String × α), a ∈ keys (dinsert k v m) ↔ a = k ∨ a ∈ keys m
  | [] => by simp [dinsert, keys]
  | (k1, v1) :: rest => by
    by_cases he : k1 = k
    · subst he
      have hd : dinsert k1 v ((k1, v1) :: rest) = (k1, v) :: rest := by
        simp [dinsert]
      rw [hd]
      simp only [keys, List.map_cons, List.mem_cons]
      tauto
    · have hd : dinsert k v ((k1, v1) :: rest) = (k1, v1) :: dinsert k v rest := by
        simp [dinsert, he]
      rw [hd]
      simp only [keys, List.map_cons, List.mem_cons]
      have ih := mem_keys_dinsert a k v rest
      simp only [keys] at ih
      rw [ih]
      tauto

/-! ### buildWaveforms lemmas -/

/-- If every listed file reads as skipped, the loop leaves the mapping
unchanged. -/
theorem buildWaveforms_all_none :
    ∀ (l : List (String × FileContent)) (acc : List (String × List ℚ)),
    (∀ e ∈ l, readSample e.2 = .ok none) → buildWaveforms l acc = .ok acc
  | [], acc, _ => rfl
  | e :: rest, acc, h => by
    have he : readSample e.2 = .ok none := h e (by simp)
    simp only [buildWaveforms, he]
    exact buildWaveforms_all_none rest acc (fun x hx => h x (by simp [hx]))

/-- If the loop finishes without an exception, every listed file was read
without an exception. -/
theorem buildWaveforms_ok_forall :
    ∀ (l : List (String × FileContent)) (acc m : List (String × List ℚ)),
    buildWaveforms l acc = .ok m →
    ∀ e ∈ l, ∃ r, readSample e.2 = .ok r
  | [], _, _, _, e, he => by simp at he
  | e0 :: rest, acc, m, h, e, he => by
    simp only [buildWaveforms] at h
    rcases hr : readSample e0.2 with msg | r
    · rw [hr] at h
      exact absurd h (by simp)
    · rw [hr] at h
      rcases List.mem_cons.mp he with he0 | her
      · exact ⟨r, he0 ▸ hr⟩
      · rcases r with _ | samples
        · exact buildWaveforms_ok_forall rest acc m h e her
        · exact buildWaveforms_ok_forall rest _ m h e her

/-- Membership in the keys of the mapping built by the loop: a key is
either already in the accumulator or the stem of a listed file that was
read successfully and not skipped. -/
theorem buildWaveforms_ok_mem (k : String) :
    ∀ (l : List (String × FileContent)) (acc m : List (String × List ℚ)),
    buildWaveforms l acc = .ok m →
    (k ∈ keys m ↔ k ∈ keys acc ∨
      ∃ e ∈ l, stem e.1 = k ∧ ∃ s, readSample e.2 = .ok (some s))
  | [], acc, m, h => by
    simp only [buildWaveforms] at h
    cases h
    simp
  | e0 :: rest, acc, m, h => by
    simp only [buildWaveforms] at h
    rcases hr : readSample e0.2 with msg | r
    · rw [hr] at h
      exact absurd h (by simp)
    · rw [hr] at h
      rcases r with _ | samples
      · have ih := buildWaveforms_ok_mem k rest acc m h
        rw [ih]
        constructor
        · rintro (ha | ⟨e, hmem, hst, hs⟩)
          · exact Or.inl ha
          · exact Or.inr ⟨e, by simp [hmem], hst, hs⟩
        · rintro (ha | ⟨e, hmem, hst, s, hs⟩)
          · exact Or.inl ha
          · rcases List.mem_cons.mp hmem with he0 | her
            · rw [← he0] at hr
              rw [hr] at hs
              cases hs
            · exact Or.inr ⟨e, her, hst, s, hs⟩
      · have ih := buildWaveforms_ok_mem k rest _ m h
        rw [ih, mem_keys_dinsert]
        constructor
        · rintro ((ha | ha) | ⟨e, hmem, hst, hs⟩)
          · exact Or.inr ⟨e0, by simp, ha.symm, samples, hr⟩
          · exact Or.inl ha
          · exact Or.inr ⟨e, by simp [hmem], hst, hs⟩
        · rintro (ha | ⟨e, hmem, hst, s, hs⟩)
          · exact Or.inl (Or.inr ha)
          · rcases List.mem_cons.mp hmem with he0 | her
            · exact Or.inl (Or.inl (by rw [← he0]; exact hst.symm))
            · exact Or.inr ⟨e, her, hst, s, hs⟩

/-- Whether a file is read successfully and not skipped. -/
def readOk (c : FileContent) : Prop := ∃ s, readSample c = .ok (some s)

instance (c : FileContent) : Decidable (readOk c) := by
  unfold readOk
  rcases readSample c with msg | r
  · exact .isFalse (by simp)
  · rcases r with _ | s
    · exact .isFalse (by simp)
    · exact .isTrue ⟨s, rfl⟩

/-- The keys of the mapping built by the loop, in order: the accumulator
keys followed by the stems of the successfully read files, in list order
(assuming the stems are fresh and pairwise distinct). -/
theorem buildWaveforms_ok_keys :
    ∀ (l : List (String × FileContent)) (acc m : List (String × List ℚ)),
    (l.map (fun e => stem e.1)).Nodup →
    (∀ e ∈ l, stem e.1 ∉ keys acc) →
    buildWaveforms l acc = .ok m →
    keys m = keys acc ++ (l.filter (fun e => decide (readOk e.2))).map
      (fun e => stem e.1)
  | [], acc, m, _, _, h => by
    simp only [buildWaveforms] at h
    cases h
    simp
  | e0 :: rest, acc, m, hnd, hfresh, h => by
    simp only [buildWaveforms] at h
    simp only [List.map_cons, List.nodup_cons] at hnd
    rcases hr : readSample e0.2 with msg | r
    · rw [hr] at h
      exact absurd h (by simp)
    · rw [hr] at h
      rcases r with _ | samples
      · have hnro : ¬ readOk e0.2 := by
          rw [readOk, hr]
          simp
        have ih := buildWaveforms_ok_keys rest acc m hnd.2
          (fun e he => hfresh e (by simp [he])) h
        rw [ih]
        simp [hnro]
      · have hro : readOk e0.2 := ⟨samples, hr⟩
        have hins : dinsert (stem e0.1) samples acc = acc ++ [(stem e0.1, samples)] :=
          dinsert_of_not_mem _ _ acc (hfresh e0 (by simp))
        have h2 : buildWaveforms rest (dinsert (stem e0.1) samples acc) = .ok m := h
        rw [hins] at h2
        have hfresh2 : ∀ e ∈ rest, stem e.1 ∉ keys (acc ++ [(stem e0.1, samples)]) := by
          intro e he hmem
          simp only [keys, List.map_append, List.mem_append] at hmem
          rcases hmem with hmem | hmem
          · exact hfresh e (by simp [he]) hmem
          · simp only [List.map_cons, List.map_nil, List.mem_singleton] at hmem
            exact hnd.1 (hmem ▸ List.mem_map_of_mem (fun e => stem e.1) he)
        have ih := buildWaveforms_ok_keys rest _ m hnd.2 hfresh2 h2
        rw [ih]
        simp [keys, hro]

/-! ### Sorting lemmas -/

theorem charListLe_total : ∀ a b : List Char,
    charListLe a b = true ∨ charListLe b a = true
  | [], b => Or.inl rfl
  | a :: as, [] => Or.inr rfl
  | a :: as, b :: bs => by
    simp only [charListLe]
    rcases Nat.lt_trichotomy a.toNat b.toNat with h | h | h
    · left
      simp [h]
    · have h2 : ¬ a.toNat < b.toNat := by omega
      have h3 : ¬ b.toNat < a.toNat := by omega
      simp only [if_neg h2, if_neg h3]
      exact charListLe_total as bs
    · right
      simp [h]

theorem charListLe_trans : ∀ a b c : List Char,
    charListLe a b = true → charListLe b c = true → charListLe a c = true
  | [], _, _, _, _ => rfl
  | a :: as, [], c, hab, _ => by simp [charListLe] at hab
  | a :: as, b :: bs, [], _, hbc => by simp [charListLe] at hbc
  | a :: as, b :: bs, c :: cs, hab, hbc => by
    simp only [charListLe] at hab hbc ⊢
    rcases Nat.lt_trichotomy a.toNat b.toNat with h1 | h1 | h1
    · rcases Nat.lt_trichotomy b.toNat c.toNat with h2 | h2 | h2
      · simp [show a.toNat < c.toNat by omega]
      · simp [show a.toNat < c.toNat by omega]
      · rw [if_neg (by omega), if_pos (by omega : c.toNat < b.toNat)] at hbc
        simp at hbc
    · rcases Nat.lt_trichotomy b.toNat c.toNat with h2 | h2 | h2
      · simp [show a.toNat < c.toNat by omega]
      · rw [if_neg (by omega), if_neg (by omega)] at hab hbc ⊢
        exact charListLe_trans as bs cs hab hbc
      · rw [if_neg (by omega), if_pos (by omega : c.toNat < b.toNat)] at hbc
        simp at hbc
    · rw [if_neg (by omega), if_pos (by omega : b.toNat < a.toNat)] at hab
      simp at hab

theorem charListLe_antisymm : ∀ a b : List Char,
    charListLe a b = true → charListLe b a = true → a = b
  | [], [], _, _ => rfl
  | [], b :: bs, _, hba => by simp [charListLe] at hba
  | a :: as, [], hab, _ => by simp [charListLe] at hab
  | a :: as, b :: bs, hab, hba => by
    simp only [charListLe] at hab hba
    rcases Nat.lt_trichotomy a.toNat b.toNat with h | h | h
    · rw [if_neg (by omega), if_pos (by omega)] at hba
      simp at hba
    · rw [if_neg (by omega), if_neg (by omega)] at hab hba
      have he : a = b := Char.eq_of_val_eq (by
        apply UInt32.eq_of_val_eq
        apply Fin.eq_of_val_eq
        exact h)
      rw [he, charListLe_antisymm as bs hab hba]
    · rw [if_neg (by omega), if_pos (by omega)] at hab
      simp at hab

instance {α : Type} : IsTotal (String × α) (fun a b => nameLe a.1 b.1 = true) :=
  ⟨fun a b => charListLe_total a.1.data b.1.data⟩

instance {α : Type} : IsTrans (String × α) (fun a b => nameLe a.1 b.1 = true) :=
  ⟨fun _ _ _ h1 h2 => charListLe_trans _ _ _ h1 h2⟩

theorem mem_sortedWavFiles (e : String × FileContent)
    (files : List (String × FileContent)) :
    e ∈ sortedWavFiles files ↔ e ∈ files ∧ matchesWav e.1 = true := by
  unfold sortedWavFiles
  rw [List.mem_insertionSort, List.mem_filter]

theorem sortedWavFiles_perm (files : List (String × FileContent)) :
    List.Perm (sortedWavFiles files) (files.filter (fun e => matchesWav e.1)) :=
  List.perm_insertionSort _ _

theorem sortedWavFiles_sorted (files : List (String × FileContent)) :
    ((sortedWavFiles files).map Prod.fst).Sorted
      (fun a b => nameLe a b = true) := by
  have h : ((files.filter (fun e => matchesWav e.1)).insertionSort
      (fun a b => nameLe a.1 b.1 = true)).Sorted
        (fun a b => nameLe a.1 b.1 = true) :=
    List.sorted_insertionSort (fun a b => nameLe a.1 b.1 = true)
      (files.filter (fun e => matchesWav e.1))
  exact List.Pairwise.map Prod.fst (fun _ _ hr => hr) h

theorem mem_bankDirs (e : String × RootNode)
    (entries : List (String × RootNode)) :
    e ∈ bankDirs entries ↔ e ∈ entries ∧ matchesBank e.1 = true := by
  unfold bankDirs
  rw [List.mem_insertionSort, List.mem_filter]

theorem bankDirs_perm (entries : List (String × RootNode)) :
    List.Perm (bankDirs entries) (entries.filter (fun e => matchesBank e.1)) :=
  List.perm_insertionSort _ _

theorem bankDirs_sorted (entries : List (String × RootNode)) :
    ((bankDirs entries).map Prod.fst).Sorted
      (fun a b => nameLe a b = true) := by
  have h : ((entries.filter (fun e => matchesBank e.1)).insertionSort
      (fun a b => nameLe a.1 b.1 = true)).Sorted
        (fun a b => nameLe a.1 b.1 = true) :=
    List.sorted_insertionSort (fun a b => nameLe a.1 b.1 = true)
      (entries.filter (fun e => matchesBank e.1))
  exact List.Pairwise.map Prod.fst (fun _ _ hr => hr) h

/-! ### process_bank lemmas -/

/-- The shape of a successful `process_bank` outcome. -/
theorem process_bank_ok_shape (g : String) (files : List (String × FileContent))
    (o : BankOutcome) (h : process_bank g files = .ok o) :
    ∃ m, buildWaveforms (sortedWavFiles files) [] = .ok m ∧
      ((m = [] ∧ o = ⟨none, none, none⟩) ∨
       (m ≠ [] ∧ o = ⟨some (g ++ ".json", m),
          some ("Processed " ++ g ++ ": " ++ toString m.length ++ " waveforms"),
          some g⟩)) := by
  unfold process_bank at h
  rcases hb : buildWaveforms (sortedWavFiles files) [] with msg | m
  · rw [hb] at h
    exact absurd h (by simp)
  · rw [hb] at h
    refine ⟨m, rfl, ?_⟩
    rcases m with _ | ⟨e, m0⟩
    · simp only [List.isEmpty_nil, if_true] at h
      exact Or.inl ⟨rfl, by cases h; rfl⟩
    · simp only [List.isEmpty_cons, if_false, Bool.false_eq_true, reduceIte] at h
      exact Or.inr ⟨by simp, by cases h; rfl⟩

theorem process_bank_result (g : String) (files : List (String × FileContent))
    (o : BankOutcome) (h : process_bank g files = .ok o) :
    o.result = none ∨ o.result = some g := by
  rcases process_bank_ok_shape g files o h with ⟨m, _, ⟨_, rfl⟩ | ⟨_, rfl⟩⟩
  · exact Or.inl rfl
  · exact Or.inr rfl

/-- A membership characterization of the keys of a written bank mapping:
exactly the stems of the files that match `*.wav` and read as mono. -/
theorem process_bank_written_mem (g : String)
    (files : List (String × FileContent)) (o : BankOutcome)
    (fn : String) (m : List (String × List ℚ)) (k : String)
    (ho : process_bank g files = .ok o) (hw : o.written = some (fn, m)) :
    k ∈ keys m ↔ ∃ e ∈ files, matchesWav e.1 = true ∧ stem e.1 = k ∧
      ∃ s, readSample e.2 = .ok (some s) := by
  rcases process_bank_ok_shape g files o ho with
    ⟨m0, hb, ⟨_, rfl⟩ | ⟨hne, rfl⟩⟩
  · simp at hw
  · simp only [Option.some.injEq, Prod.mk.injEq] at hw
    rcases hw with ⟨_, rfl⟩
    rw [buildWaveforms_ok_mem k _ _ _ hb]
    simp only [keys, List.map_nil, List.not_mem_nil, false_or]
    constructor
    · rintro ⟨e, hmem, hst, hs⟩
      rcases (mem_sortedWavFiles e files).mp hmem with ⟨hf, hm⟩
      exact ⟨e, hf, hm, hst, hs⟩
    · rintro ⟨e, hf, hm, hst, hs⟩
      exact ⟨e, (mem_sortedWavFiles e files).mpr ⟨hf, hm⟩, hst, hs⟩

/-- A bank whose matching files are all skipped yields the all-`None`
outcome: nothing written, nothing printed, `None` returned. -/
theorem process_bank_all_skipped (g : String)
    (files : List (String × FileContent))
    (h : ∀ e ∈ files, matchesWav e.1 = true → readSample e.2 = .ok none) :
    process_bank g files = .ok ⟨none, none, none⟩ := by
  have hb : buildWaveforms (sortedWavFiles files) [] = .ok [] := by
    apply buildWaveforms_all_none
    intro e he
    rcases (mem_sortedWavFiles e files).mp he with ⟨hf, hm⟩
    exact h e hf hm
  unfold process_bank
  rw [hb]
  simp

/-! ### processAll and main lemmas -/

/-- If the whole loop finishes without an exception, every directory entry
in it was processed without an exception. -/
theorem processAll_ok_forall :
    ∀ (l : List (String × RootNode)) (ns : List String)
      (ws : List (String × List (String × List ℚ))) (ls : List String) res,
    processAll l ns ws ls = .ok res →
    ∀ e ∈ l, ∀ files, e.2 = RootNode.dir files →
      ∃ o, process_bank e.1 files = .ok o
  | [], _, _, _, _, _, e, he => by simp at he
  | (n0, .file c0) :: rest, ns, ws, ls, res, h, e, he => by
    intro files hf
    rcases List.mem_cons.mp he with he0 | her
    · rw [he0] at hf
      simp at hf
    · exact processAll_ok_forall rest ns ws ls res h e her files hf
  | (n0, .dir fs0) :: rest, ns, ws, ls, res, h, e, he => by
    intro files hf
    simp only [processAll] at h
    rcases hp : process_bank n0 fs0 with msg | o
    · rw [hp] at h
      exact absurd h (by simp)
    · rw [hp] at h
      rcases List.mem_cons.mp he with he0 | her
      · rw [he0] at hf
        simp only at hf
        cases he0
        cases hf
        exact ⟨o, hp⟩
      · exact processAll_ok_forall rest _ _ _ res h e her files hf

/-- The bank names accumulated by the loop: the initial names followed by
the names of the entries that produce output, in list order. -/
theorem processAll_ok_names :
    ∀ (l : List (String × RootNode)) (ns : List String)
      (ws : List (String × List (String × List ℚ))) (ls : List String)
      ns2 ws2 ls2,
    processAll l ns ws ls = .ok (ns2, ws2, ls2) →
    ns2 = ns ++ (l.filter producesOutput).map Prod.fst
  | [], ns, ws, ls, ns2, ws2, ls2, h => by
    simp only [processAll] at h
    cases h
    simp
  | (n0, .file c0) :: rest, ns, ws, ls, ns2, ws2, ls2, h => by
    have ih := processAll_ok_names rest ns ws ls ns2 ws2 ls2 h
    rw [ih]
    simp [producesOutput]
  | (n0, .dir fs0) :: rest, ns, ws, ls, ns2, ws2, ls2, h => by
    simp only [processAll] at h
    rcases hp : process_bank n0 fs0 with msg | o
    · rw [hp] at h
      exact absurd h (by simp)
    · rw [hp] at h
      have ih := processAll_ok_names rest _ _ _ ns2 ws2 ls2 h
      rw [ih]
      rcases process_bank_result n0 fs0 o hp with hr | hr
      · have hpo : producesOutput (n0, RootNode.dir fs0) = false := by
          simp [producesOutput, hp, hr]
        simp [hr, hpo]
      · have hpo : producesOutput (n0, RootNode.dir fs0) = true := by
          simp [producesOutput, hp, hr]
        simp [hr, hpo]

/-- A successful `main` run writes the manifest, listing exactly the
sorted glob matches that produce output, in order. -/
theorem main_ok_manifest (wd : String) (entries : List (String × RootNode))
    (o : MainOutcome) (hne : bankDirs entries ≠ [])
    (h : main wd true entries = .ok o) :
    o.manifest = some (((bankDirs entries).filter producesOutput).map Prod.fst) ∧
    o.exitCode = 0 := by
  unfold main at h
  have hbe : (bankDirs entries).isEmpty = false := by
    simpa using hne
  rw [hbe] at h
  simp only [Bool.not_true, Bool.false_eq_true, if_false, reduceIte] at h
  rcases hp : processAll (bankDirs entries) [] [] [] with msg | res
  · rw [hp] at h
    exact absurd h (by simp)
  · rw [hp] at h
    rcases res with ⟨ns, ws, ls⟩
    have hn := processAll_ok_names (bankDirs entries) [] [] [] ns ws ls hp
    cases h
    simp only []
    rw [hn]
    simp

/-! ### Manifest serialization and decidability helpers -/

instance {ε α : Type} [DecidableEq ε] [DecidableEq α] :
    DecidableEq (Except ε α) := fun x y =>
  match x, y with
  | .error a, .error b =>
    if h : a = b then .isTrue (by rw [h]) else .isFalse (by simp [h])
  | .error _, .ok _ => .isFalse (by simp)
  | .ok _, .error _ => .isFalse (by simp)
  | .ok a, .ok b =>
    if h : a = b then .isTrue (by rw [h]) else .isFalse (by simp [h])

/-- Lowercase hexadecimal digit. -/
def hexDigit (n : ℕ) : Char :=
  if n < 10 then Char.ofNat (48 + n) else Char.ofNat (87 + n)

/-- Four-digit lowercase hexadecimal rendering, as in `\uXXXX`. -/
def hex4 (n : ℕ) : String :=
  ⟨[hexDigit (n / 4096 % 16), hexDigit (n / 256 % 16),
    hexDigit (n / 16 % 16), hexDigit (n % 16)]⟩

/-- Escaping of one character in a JSON string, as the default
`json.dump` (ensure_ascii) does: printable ASCII except quote and
backslash stays, known control characters get their short escapes, and
everything else becomes `\uXXXX` (surrogate pairs beyond the BMP). -/
def escapeChar (c : Char) : String :=
  if c = '"' then "\\\""
  else if c = '\\' then "\\\\"
  else if 32 ≤ c.toNat ∧ c.toNat ≤ 126 then String.singleton c
  else if c = '\n' then "\\n"
  else if c = '\t' then "\\t"
  else if c = '\r' then "\\r"
  else if c.toNat = 8 then "\\b"
  else if c.toNat = 12 then "\\f"
  else if c.toNat ≤ 65535 then "\\u" ++ hex4 c.toNat
  else
    "\\u" ++ hex4 (55296 + (c.toNat - 65536) / 1024) ++
    "\\u" ++ hex4 (56320 + (c.toNat - 65536) % 1024)

/-- A Python `json.dump` string literal. -/
def pyJsonStr (s : String) : String :=
  "\"" ++ String.join (s.data.map escapeChar) ++ "\""

/-- The exact text that `json.dump` writes for the manifest object (one
key, `banks`) with indent 2. -/
def manifestText (banks : List String) : String :=
  if banks.isEmpty then "\x7b\n  \"banks\": []\n\x7d"
  else
    "\x7b\n  \"banks\": [\n    " ++
    String.intercalate ",\n    " (banks.map pyJsonStr) ++
    "\n  ]\n\x7d"

/-- The manifest file write of a `main` run: name and full text, when the
run reached the manifest write. -/
def MainOutcome.manifestFile (o : MainOutcome) : Option (String × String) :=
  o.manifest.map (fun banks => ("manifest.json", manifestText banks))

/-- A root entry contributes nothing: it is not a directory, or every
`*.wav` file in it is skipped by `read_wav`. -/
def bankSkipped : RootNode → Prop
  | .file _ => True
  | .dir files => ∀ f ∈ files, matchesWav f.1 = true → readSample f.2 = .ok none

instance (n : RootNode) : Decidable (bankSkipped n) :=
  match n with
  | .file _ => .isTrue trivial
  | .dir files => inferInstanceAs
      (Decidable (∀ f ∈ files, matchesWav f.1 = true → readSample f.2 = .ok none))

/-- The not-a-directory fast failure of `main`. -/
theorem main_not_dir (wd : String) (entries : List (String × RootNode)) :
    main wd false entries =
      .ok ⟨1, some ("Error: Directory " ++ wd ++ " not found"), [], none, []⟩ := by
  unfold main
  simp

/-- The no-matching-entries fast failure of `main`. -/
theorem main_no_match (wd : String) (entries : List (String × RootNode))
    (h : bankDirs entries = []) :
    main wd true entries =
      .ok ⟨1, some ("Error: No AKWF_* directories found in " ++ wd),
           [], none, []⟩ := by
  unfold main
  rw [h]
  simp

/-- Pre-filtering the non-`*.wav` files changes nothing: the glob already
ignores them. -/
theorem sortedWavFiles_filter (files : List (String × FileContent)) :
    sortedWavFiles (files.filter (fun e => matchesWav e.1)) =
      sortedWavFiles files := by
  have hf : (files.filter (fun e => matchesWav e.1)).filter
        (fun e => matchesWav e.1) = files.filter (fun e => matchesWav e.1) := by
    rw [List.filter_filter]
    apply List.filter_congr
    intro e _
    rw [Bool.and_self]
  unfold sortedWavFiles
  rw [hf]

/-- If every glob match is skipped (not a directory, or all of its `*.wav`
files are skipped), the loop accumulates nothing. -/
theorem processAll_all_skipped :
    ∀ l : List (String × RootNode), (∀ e ∈ l, bankSkipped e.2) →
    processAll l [] [] [] = .ok ([], [], [])
  | [], _ => rfl
  | (n0, .file c0) :: rest, h => by
    simp only [processAll]
    exact processAll_all_skipped rest (fun e he => h e (by simp [he]))
  | (n0, .dir fs0) :: rest, h => by
    have hsk : bankSkipped (RootNode.dir fs0) := h (n0, .dir fs0) (by simp)
    have hpb : process_bank n0 fs0 = .ok ⟨none, none, none⟩ :=
      process_bank_all_skipped n0 fs0 hsk
    simp only [processAll, hpb]
    exact processAll_all_skipped rest (fun e he => h e (by simp [he]))

/-! ### The claims -/

/-- C1: for a mono 16-bit file with n frames, `read_wav` returns exactly n
values in order, the i-th being the i-th signed 16-bit little-endian
sample divided by 32768 and rounded to six decimal places, and every value
lies in [-1, 1]. -/
theorem claim_C1 (w : WavFile) (h1 : w.nchannels = 1)
    (h2 : w.raw.length = 2 * w.nframes) (hb : ∀ b ∈ w.raw, b < 256) :
    ∃ l : List ℚ, read_wav w = .ok (some l) ∧ l.length = w.nframes ∧
      (∀ i, i < w.nframes →
        l[i]? = some (normalize (toSigned16
          ((w.raw[2*i]?.getD 0) + 256 * (w.raw[2*i+1]?.getD 0))))) ∧
      ∀ x ∈ l, -1 ≤ x ∧ x ≤ 1 := by
  refine ⟨(decode16le w.raw).map normalize, read_wav_mono w h1 h2, ?_, ?_, ?_⟩
  · rw [List.length_map, decode16le_length, h2]
    omega
  · intro i hi
    have hlen : 2 * i + 1 < w.raw.length := by omega
    rw [List.getElem?_map, decode16le_getElem w.raw i hlen]
    rfl
  · intro x hx
    rcases List.mem_map.mp hx with ⟨s, hs, rfl⟩
    have hbd := decode16le_mem_bounds w.raw hb s hs
    exact normalize_mem_Icc s hbd.1 hbd.2

/-- C1 witness: a concrete two-frame mono file with samples 0 and 32767. -/
theorem claim_C1_witness :
    ∃ l : List ℚ,
      read_wav ⟨1, 2, [0, 0, 255, 127]⟩ = .ok (some l) ∧ l.length = 2 ∧
      (∀ i, i < 2 →
        l[i]? = some (normalize (toSigned16
          (([0, 0, 255, 127][2*i]?.getD 0) +
            256 * ([0, 0, 255, 127][2*i+1]?.getD 0))))) ∧
      ∀ x ∈ l, -1 ≤ x ∧ x ≤ 1 :=
  claim_C1 ⟨1, 2, [0, 0, 255, 127]⟩ rfl rfl (by decide)

/-- C2: a file with channel count other than one yields the skipped result
(`None`, no error), and such a file contributes no key to the output
mapping of its group. -/
theorem claim_C2 (w : WavFile) (hw : w.nchannels ≠ 1)
    (g fname : String) (files : List (String × FileContent))
    (_hmem : (fname, FileContent.wav w) ∈ files)
    (huniq : ∀ e ∈ files, stem e.1 = stem fname → e = (fname, FileContent.wav w))
    (o : BankOutcome) (ho : process_bank g files = .ok o) :
    read_wav w = .ok none ∧
    ∀ fn m, o.written = some (fn, m) → stem fname ∉ keys m := by
  have hrw : read_wav w = .ok none := by
    unfold read_wav
    simp [hw]
  refine ⟨hrw, ?_⟩
  intro fn m hwr hk
  rw [process_bank_written_mem g files o fn m _ ho hwr] at hk
  rcases hk with ⟨e, hef, _, hst, s, hs⟩
  rw [huniq e hef hst] at hs
  simp only [readSample] at hs
  rw [hrw] at hs
  exact absurd hs (by simp)

/-- C2 witness: a stereo file next to a mono file in a processed group. -/
theorem claim_C2_witness :
    read_wav ⟨2, 0, []⟩ = .ok none ∧
    ∀ fn m,
      (⟨some ("AKWF_g.json", [("a", ([] : List ℚ))]),
        some "Processed AKWF_g: 1 waveforms",
        some "AKWF_g"⟩ : BankOutcome).written = some (fn, m) →
      stem "b.wav" ∉ keys m :=
  claim_C2 ⟨2, 0, []⟩ (by decide) "AKWF_g" "b.wav"
    [("a.wav", .wav ⟨1, 0, []⟩), ("b.wav", .wav ⟨2, 0, []⟩)]
    (by decide) (by decide) _ rfl

/-- C3: a group whose output mapping is empty (no files, or only skipped
files) writes no bank file, prints no progress line, returns the absent
result, and its name is excluded from the manifest. -/
theorem claim_C3 (wd g : String) (files : List (String × FileContent))
    (entries : List (String × RootNode))
    (hmem : (g, RootNode.dir files) ∈ entries)
    (hskip : ∀ e ∈ files, matchesWav e.1 = true → readSample e.2 = .ok none)
    (hnd : (entries.map Prod.fst).Nodup) :
    process_bank g files = .ok ⟨none, none, none⟩ ∧
    ∀ o banks, main wd true entries = .ok o → o.manifest = some banks →
      g ∉ banks := by
  have hpb := process_bank_all_skipped g files hskip
  refine ⟨hpb, ?_⟩
  intro o banks hm hmf hg
  by_cases hbd : bankDirs entries = []
  · rw [main_no_match wd entries hbd] at hm
    cases hm
    simp at hmf
  · obtain ⟨hman, _⟩ := main_ok_manifest wd entries o hbd hm
    rw [hman] at hmf
    injection hmf with hbanks
    rw [← hbanks] at hg
    rcases List.mem_map.mp hg with ⟨e, hef, hefst⟩
    have hfil := List.mem_filter.mp hef
    have hent := (mem_bankDirs e entries).mp hfil.1
    have heq : e = (g, RootNode.dir files) :=
      List.inj_on_of_nodup_map hnd hent.1 hmem hefst
    rw [heq] at hfil
    have : producesOutput (g, RootNode.dir files) = false := by
      simp [producesOutput, hpb]
    rw [this] at hfil
    exact absurd hfil.2 (by simp)

/-- C3 witness: a group with a single stereo file, next to a group that
does produce output. -/
theorem claim_C3_witness :
    process_bank "AKWF_e" [("s.wav", FileContent.wav ⟨2, 0, []⟩)] =
      .ok ⟨none, none, none⟩ ∧
    ∀ o banks,
      main "." true
        [("AKWF_e", RootNode.dir [("s.wav", FileContent.wav ⟨2, 0, []⟩)]),
         ("AKWF_b", RootNode.dir [("a.wav", FileContent.wav ⟨1, 0, []⟩)])] =
        .ok o →
      o.manifest = some banks → "AKWF_e" ∉ banks :=
  claim_C3 "." "AKWF_e" [("s.wav", FileContent.wav ⟨2, 0, []⟩)]
    [("AKWF_e", RootNode.dir [("s.wav", FileContent.wav ⟨2, 0, []⟩)]),
     ("AKWF_b", RootNode.dir [("a.wav", FileContent.wav ⟨1, 0, []⟩)])]
    (by decide) (by decide) (by decide)

/-- C4: a successful run writes the manifest, whose banks field lists
exactly the glob matches that produced a non-empty mapping, in processing
order (the ascending sorted order of the matches), serialized with
two-space indentation; the write replaces any prior manifest (mode `w`). -/
theorem claim_C4 (wd : String) (entries : List (String × RootNode))
    (o : MainOutcome) (hne : bankDirs entries ≠ [])
    (h : main wd true entries = .ok o) :
    o.manifest = some (((bankDirs entries).filter producesOutput).map Prod.fst) ∧
    o.manifestFile = some ("manifest.json",
      manifestText (((bankDirs entries).filter producesOutput).map Prod.fst)) ∧
    ((bankDirs entries).map Prod.fst).Sorted (fun a b => nameLe a b = true) := by
  obtain ⟨hman, _⟩ := main_ok_manifest wd entries o hne h
  refine ⟨hman, ?_, bankDirs_sorted entries⟩
  simp [MainOutcome.manifestFile, hman]

/-- C4 witness: one bank directory with one empty mono file. -/
theorem claim_C4_witness :
    (⟨0, none, [("AKWF_a.json", [("a", ([] : List ℚ))])], some ["AKWF_a"],
      ["Processed AKWF_a: 1 waveforms",
       "Generated 1 bank files and manifest.json"]⟩ : MainOutcome).manifest =
      some (((bankDirs [("AKWF_a", RootNode.dir
          [("a.wav", FileContent.wav ⟨1, 0, []⟩)])]).filter
        producesOutput).map Prod.fst) ∧
    (⟨0, none, [("AKWF_a.json", [("a", ([] : List ℚ))])], some ["AKWF_a"],
      ["Processed AKWF_a: 1 waveforms",
       "Generated 1 bank files and manifest.json"]⟩ : MainOutcome).manifestFile =
      some ("manifest.json",
        manifestText (((bankDirs [("AKWF_a", RootNode.dir
            [("a.wav", FileContent.wav ⟨1, 0, []⟩)])]).filter
          producesOutput).map Prod.fst)) ∧
    ((bankDirs [("AKWF_a", RootNode.dir
        [("a.wav", FileContent.wav ⟨1, 0, []⟩)])]).map Prod.fst).Sorted
      (fun a b => nameLe a b = true) :=
  claim_C4 "." [("AKWF_a", RootNode.dir [("a.wav", FileContent.wav ⟨1, 0, []⟩)])]
    _ (by decide) rfl

/-- C5 counterexample: in a working root whose only `AKWF_*` match is a
plain file, no subdirectory matching `AKWF_*` exists, yet the program does
not exit with status 1: it exits 0, prints no error, and writes a
manifest.  The glob test only checks that some entry matches, not that a
subdirectory does. -/
theorem claim_C5_counterexample :
    main "." true [("AKWF_x", RootNode.file FileContent.malformed)] =
      .ok ⟨0, none, [], some [], ["Generated 0 bank files and manifest.json"]⟩ :=
  rfl

/-- C5 amended: the program reports to stderr and exits 1 when (a) the
working root is not a directory, or (b) no entry of the working root (file
or directory) matches `AKWF_*`; in both failure cases it writes no output
files; otherwise a run that returns normally exits 0. -/
theorem claim_C5_amended (wd : String) (isDir : Bool)
    (entries : List (String × RootNode)) :
    (isDir = false →
      main wd isDir entries =
        .ok ⟨1, some ("Error: Directory " ++ wd ++ " not found"),
             [], none, []⟩) ∧
    (entries.filter (fun e => matchesBank e.1) = [] →
      main wd true entries =
        .ok ⟨1, some ("Error: No AKWF_* directories found in " ++ wd),
             [], none, []⟩) ∧
    (isDir = true → entries.filter (fun e => matchesBank e.1) ≠ [] →
      ∀ o, main wd isDir entries = .ok o → o.exitCode = 0) := by
  refine ⟨?_, ?_, ?_⟩
  · rintro rfl
    exact main_not_dir wd entries
  · intro hf
    apply main_no_match
    unfold bankDirs
    rw [hf]
    rfl
  · rintro rfl hf o ho
    have hbd : bankDirs entries ≠ [] := by
      intro hb
      apply hf
      have hp := bankDirs_perm entries
      rw [hb] at hp
      exact (hp.symm).eq_nil
    exact (main_ok_manifest wd entries o hbd ho).2

/-- C5 amended witness: the two failure shapes and one normal exit. -/
theorem claim_C5_amended_witness :
    main "." false [] =
      .ok ⟨1, some ("Error: Directory " ++ "." ++ " not found"),
           [], none, []⟩ ∧
    main "." true [("zz", RootNode.file FileContent.malformed)] =
      .ok ⟨1, some ("Error: No AKWF_* directories found in " ++ "."),
           [], none, []⟩ ∧
    (⟨0, none, [], some [], ["Generated 0 bank files and manifest.json"]⟩ :
      MainOutcome).exitCode = 0 :=
  ⟨(claim_C5_amended "." false []).1 rfl,
   (claim_C5_amended "." true [("zz", RootNode.file FileContent.malformed)]).2.1
     (by decide),
   (claim_C5_amended "." true [("AKWF_x", RootNode.file FileContent.malformed)]).2.2
     rfl (by decide) _ rfl⟩

/-- C6: the keys of the written mapping are the stems of the matching files
that were read and kept, listed in ascending filename order (keys are
inserted in sorted enumeration order), and they are unique within the
group. -/
theorem claim_C6 (g : String) (files : List (String × FileContent))
    (o : BankOutcome) (fn : String) (m : List (String × List ℚ))
    (hnd : ((files.filter (fun e => matchesWav e.1)).map
      (fun e => stem e.1)).Nodup)
    (ho : process_bank g files = .ok o) (hw : o.written = some (fn, m)) :
    keys m = ((sortedWavFiles files).filter
      (fun e => decide (readOk e.2))).map (fun e => stem e.1) ∧
    (keys m).Nodup ∧
    ((sortedWavFiles files).map Prod.fst).Sorted
      (fun a b => nameLe a b = true) := by
  have hnd2 : ((sortedWavFiles files).map (fun e => stem e.1)).Nodup := by
    have hperm := sortedWavFiles_perm files
    exact ((hperm.map (fun e => stem e.1)).nodup_iff).mpr hnd
  rcases process_bank_ok_shape g files o ho with ⟨m0, hb, ⟨_, rfl⟩ | ⟨hne, rfl⟩⟩
  · simp at hw
  · simp only [Option.some.injEq, Prod.mk.injEq] at hw
    rcases hw with ⟨_, rfl⟩
    have hkeys := buildWaveforms_ok_keys (sortedWavFiles files) [] m0 hnd2
      (by intro e _ hin; simp [keys] at hin) hb
    simp only [keys, List.map_nil, List.nil_append] at hkeys
    refine ⟨hkeys, ?_, sortedWavFiles_sorted files⟩
    simp only [keys]
    rw [hkeys]
    exact List.Nodup.sublist
      (List.Sublist.map _ (List.filter_sublist _)) hnd2

/-- C6 witness: one mono file, one stereo file, one non-wav file. -/
theorem claim_C6_witness :
    keys [("b", ([] : List ℚ))] =
      ((sortedWavFiles
        [("b.wav", FileContent.wav ⟨1, 0, []⟩),
         ("a.wav", FileContent.wav ⟨2, 0, []⟩),
         ("c.txt", FileContent.malformed)]).filter
        (fun e => decide (readOk e.2))).map (fun e => stem e.1) ∧
    (keys [("b", ([] : List ℚ))]).Nodup ∧
    ((sortedWavFiles
        [("b.wav", FileContent.wav ⟨1, 0, []⟩),
         ("a.wav", FileContent.wav ⟨2, 0, []⟩),
         ("c.txt", FileContent.malformed)]).map Prod.fst).Sorted
      (fun a b => nameLe a b = true) :=
  claim_C6 "AKWF_g"
    [("b.wav", FileContent.wav ⟨1, 0, []⟩),
     ("a.wav", FileContent.wav ⟨2, 0, []⟩),
     ("c.txt", FileContent.malformed)]
    _ "AKWF_g.json" [("b", [])] (by decide) rfl rfl

/-- C7: a file whose header the wave module rejects, or whose payload does
not hold two bytes per frame, makes the read raise; the error is caught
nowhere, so neither `process_bank` nor `main` can return normally, and no
output mapping containing the bad file is ever produced. -/
theorem claim_C7 (w : WavFile) (hc : w.nchannels = 1)
    (hlen : w.raw.length ≠ 2 * w.nframes)
    (wd g fname : String) (c : FileContent) (msg : String)
    (files : List (String × FileContent)) (entries : List (String × RootNode))
    (hmem : (fname, c) ∈ files) (hmw : matchesWav fname = true)
    (herr : readSample c = .error msg)
    (hgmem : (g, RootNode.dir files) ∈ entries)
    (hgb : matchesBank g = true) :
    read_wav w = .error "struct.error" ∧
    (∀ o, process_bank g files ≠ .ok o) ∧
    (∀ o, main wd true entries ≠ .ok o) := by
  have hrw : read_wav w = .error "struct.error" := by
    unfold read_wav unpack_h
    simp [hc, hlen]
  have hpb : ∀ o, process_bank g files ≠ .ok o := by
    intro o ho
    rcases process_bank_ok_shape g files o ho with ⟨m0, hb, _⟩
    rcases buildWaveforms_ok_forall _ _ _ hb (fname, c)
      ((mem_sortedWavFiles _ files).mpr ⟨hmem, hmw⟩) with ⟨r, hr⟩
    rw [herr] at hr
    exact absurd hr (by simp)
  refine ⟨hrw, hpb, ?_⟩
  intro o hm
  have hbne : (bankDirs entries).isEmpty = false := by
    have hmem2 : (g, RootNode.dir files) ∈ bankDirs entries :=
      (mem_bankDirs _ entries).mpr ⟨hgmem, hgb⟩
    rcases hbb : bankDirs entries with _ | _
    · rw [hbb] at hmem2
      simp at hmem2
    · rfl
  unfold main at hm
  rw [hbne] at hm
  simp only [Bool.not_true, Bool.false_eq_true, if_false, reduceIte] at hm
  rcases hp : processAll (bankDirs entries) [] [] [] with msg2 | res
  · rw [hp] at hm
    exact absurd hm (by simp)
  · rcases processAll_ok_forall _ _ _ _ res hp (g, RootNode.dir files)
      ((mem_bankDirs _ entries).mpr ⟨hgmem, hgb⟩) files rfl with ⟨o2, ho2⟩
    exact hpb o2 ho2

/-- C7 witness: a mono file whose payload is empty but whose header claims
one frame, inside a matched group. -/
theorem claim_C7_witness :
    read_wav ⟨1, 1, []⟩ = .error "struct.error" ∧
    (∀ o, process_bank "AKWF_g" [("x.wav", FileContent.malformed)] ≠ .ok o) ∧
    (∀ o, main "." true
        [("AKWF_g", RootNode.dir [("x.wav", FileContent.malformed)])] ≠
      .ok o) :=
  claim_C7 ⟨1, 1, []⟩ rfl (by decide) "." "AKWF_g" "x.wav"
    FileContent.malformed "wave.Error"
    [("x.wav", FileContent.malformed)]
    [("AKWF_g", RootNode.dir [("x.wav", FileContent.malformed)])]
    (by decide) (by decide) rfl (by decide) (by decide)

/-- C9: only `*.wav` glob matches are ever read — the result of the group
is a function of the matching files alone — and a non-matching file
contributes no key to the output mapping, even if it is a valid mono
file. -/
theorem claim_C9 (g fname : String) (c : FileContent)
    (files : List (String × FileContent))
    (_hmem : (fname, c) ∈ files) (_hnm : matchesWav fname = false)
    (hstem : ∀ e ∈ files, matchesWav e.1 = true → stem e.1 ≠ stem fname) :
    process_bank g files =
      process_bank g (files.filter (fun e => matchesWav e.1)) ∧
    ∀ o fn m, process_bank g files = .ok o → o.written = some (fn, m) →
      stem fname ∉ keys m := by
  constructor
  · unfold process_bank
    rw [sortedWavFiles_filter]
  · intro o fn m ho hw hk
    rw [process_bank_written_mem g files o fn m _ ho hw] at hk
    rcases hk with ⟨e, hef, hm, hst, _⟩
    exact hstem e hef hm hst

/-- C9 witness: a valid mono `.txt` file next to a `.wav` file. -/
theorem claim_C9_witness :
    process_bank "AKWF_g"
      [("a.txt", FileContent.wav ⟨1, 0, []⟩),
       ("b.wav", FileContent.wav ⟨1, 0, []⟩)] =
      process_bank "AKWF_g"
        ([("a.txt", FileContent.wav ⟨1, 0, []⟩),
          ("b.wav", FileContent.wav ⟨1, 0, []⟩)].filter
          (fun e => matchesWav e.1)) ∧
    ∀ o fn m,
      process_bank "AKWF_g"
        [("a.txt", FileContent.wav ⟨1, 0, []⟩),
         ("b.wav", FileContent.wav ⟨1, 0, []⟩)] = .ok o →
      o.written = some (fn, m) → stem "a.txt" ∉ keys m :=
  claim_C9 "AKWF_g" "a.txt" (FileContent.wav ⟨1, 0, []⟩)
    [("a.txt", FileContent.wav ⟨1, 0, []⟩),
     ("b.wav", FileContent.wav ⟨1, 0, []⟩)]
    (by decide) (by decide) (by decide)

/-- C10: when at least one entry matches `AKWF_*` but no group produces
output (all matches are plain files or groups of skipped files), the run
still succeeds: empty manifest, a summary line reporting 0 bank files,
exit status 0, and no bank files written. -/
theorem claim_C10 (wd : String) (entries : List (String × RootNode))
    (hne : entries.filter (fun e => matchesBank e.1) ≠ [])
    (hskip : ∀ e ∈ entries, matchesBank e.1 = true → bankSkipped e.2) :
    main wd true entries =
      .ok ⟨0, none, [], some [],
           ["Generated 0 bank files and manifest.json"]⟩ := by
  have hbd : (bankDirs entries).isEmpty = false := by
    rcases hb : bankDirs entries with _ | _
    · exfalso
      apply hne
      have hp := bankDirs_perm entries
      rw [hb] at hp
      exact (hp.symm).eq_nil
    · rfl
  have hall : ∀ e ∈ bankDirs entries, bankSkipped e.2 := by
    intro e he
    rcases (mem_bankDirs e entries).mp he with ⟨hent, hmb⟩
    exact hskip e hent hmb
  have hpa := processAll_all_skipped (bankDirs entries) hall
  unfold main
  rw [hbd, hpa]
  rfl

/-- C10 witness: a single matching entry that is a plain file. -/
theorem claim_C10_witness :
    main "." true [("AKWF_x", RootNode.file FileContent.malformed)] =
      .ok ⟨0, none, [], some [],
           ["Generated 0 bank files and manifest.json"]⟩ :=
  claim_C10 "." [("AKWF_x", RootNode.file FileContent.malformed)]
    (by decide) (by decide)

/-- C8: the boundary sample 32767 maps to 0.999969 and the boundary sample
-32768 maps to exactly -1. -/
theorem claim_C8 :
    normalize 32767 = 999969 / 1000000 ∧ normalize (-32768) = -1 := by
  constructor
  · unfold normalize round6
    have he : ((32767 : ℤ) : ℚ) / 32768 * 1000000 = 511984375 / 512 := by
      norm_num
    rw [he, rhe_eq_of (511984375 / 512) 999969 (by norm_num) (by norm_num)]
    norm_num
  · unfold normalize round6
    have he : ((-32768 : ℤ) : ℚ) / 32768 * 1000000 = -1000000 := by
      norm_num
    rw [he, rhe_eq_of (-1000000) (-1000000) (by norm_num) (by norm_num)]
    norm_num

end AKWF
